import Mathlib

/-
Verification development for the ann-music-scale core: the scale-type
dictionary, pitch-class signature algebra, scale instantiation and the
derived queries (extended / reduced / toSteps), shallowly embedded from
the TypeScript sources (src/src/index.ts, src/src/dictionary.ts,
src/src/types.ts and the unnamed parts).  The external collaborators
(Note, Interval and Pc services) and the raw template list SCALE_LIST
are not part of the repository snapshot; they are modelled from the
specification, as marked on each such definition.
-/

/-! ## Basic string machinery (all structural, so the kernel can evaluate it) -/

/-- Render a decimal digit 0..9 as a character. -/
def digitChar (d : Nat) : Char :=
  match d with
  | 0 => '0' | 1 => '1' | 2 => '2' | 3 => '3' | 4 => '4'
  | 5 => '5' | 6 => '6' | 7 => '7' | 8 => '8' | 9 => '9'
  | _ => '0'

/-- Decimal digits of a natural number, most significant first (fuel-based so
the recursion is structural and kernel-reducible). -/
def natDigitsAux : Nat → Nat → List Char
  | 0, _ => []
  | fuel + 1, n => if n < 10 then [digitChar n] else natDigitsAux fuel (n / 10) ++ [digitChar (n % 10)]

/-- Decimal digits of a natural number, most significant first. -/
def natDigits (n : Nat) : List Char := natDigitsAux (n + 1) n

/-- Decimal rendering of a natural number. -/
def natToStr (n : Nat) : String := (natDigits n).asString

/-- Decimal rendering of an integer. -/
def intToStr (i : Int) : String :=
  if i < 0 then "-" ++ natToStr i.toNat else natToStr i.toNat
  -- negative values never occur for the interval widths in the dictionary

/-- JavaScript-style split of a character list on a separator character
("".split gives [""], trailing separators give a trailing empty piece). -/
def splitChars (sep : Char) : List Char → List (List Char)
  | [] => [[]]
  | c :: rest =>
    let r := splitChars sep rest
    if c = sep then [] :: r
    else (c :: r.headD []) :: r.tail

/-- JavaScript-style String.split on a single separator character. -/
def strSplit (s : String) (sep : Char) : List String :=
  (splitChars sep s.toList).map List.asString

/-- Drop leading and trailing spaces (JavaScript String.trim on the inputs
that occur here, which only ever carry plain spaces). -/
def trimChars (l : List Char) : List Char :=
  ((l.dropWhile (· = ' ')).reverse.dropWhile (· = ' ')).reverse

/-- String trim. -/
def strTrim (s : String) : String := (trimChars s.toList).asString

/-- Index of the first occurrence of a character in a character list. -/
def idxOfAux (c : Char) : List Char → Option Nat
  | [] => none
  | x :: xs => if x = c then some 0 else (idxOfAux c xs).map (· + 1)

/-- JavaScript String.indexOf for a single character: index of the first
occurrence, or -1. -/
def strIndexOf (s : String) (c : Char) : Int :=
  match idxOfAux c s.toList with
  | some i => (i : Int)
  | none => -1

/-- Join a list of strings with a single space between the pieces
(Array.prototype.join(' ')). -/
def joinSpace : List String → String
  | [] => ""
  | [x] => x
  | x :: xs => x ++ " " ++ joinSpace xs

/-- Join a list of strings with a dash between the pieces
(Array.prototype.join('-')). -/
def joinDash : List String → String
  | [] => ""
  | [x] => x
  | x :: xs => x ++ "-" ++ joinDash xs

/-- JavaScript String.replace with a plain-string pattern replaces only the
first occurrence; this is the character-level replacement of "##" by "x"
used on spelled note names (src/unnamed/part_002, scaleNotes). -/
def replaceDoubleSharp : List Char → List Char
  | '#' :: '#' :: rest => 'x' :: rest
  | c :: rest => c :: replaceDoubleSharp rest
  | [] => []

/-- String-level replacement of the first "##" by "x". -/
def repl2 (s : String) : String := (replaceDoubleSharp s.toList).asString

/-! ## The external Note service

Modelled from the spec: the Note service (an external collaborator, spec
section 6) parses a note name into (letter, accidental, octave, MIDI number,
pitch-class index) with a validity flag.  A name is a natural letter A..G,
followed by a run of sharps or a run of flats, followed by optional octave
digits.  A pitch-class-only name (no octave digits) keeps its name as given;
its octave defaults to 4 for MIDI purposes.  Invalid names give the invalid
note (empty name and pitch class, all numbers zero). -/

/-- Natural letters in NOTE.NATURAL order; the successor function obtained
from it cycles A→B→C→D→E→F→G→A, the cycle the spec describes. -/
def NATURAL : List Char := ['C', 'D', 'E', 'F', 'G', 'A', 'B']

/-- NOTE.Letter.toStep: position of a letter inside NATURAL. -/
def letterStep (c : Char) : Nat :=
  match c with
  | 'C' => 0 | 'D' => 1 | 'E' => 2 | 'F' => 3 | 'G' => 4 | 'A' => 5 | 'B' => 6
  | _ => 0

/-- Semitone value of the plain (accidental-free) letter. -/
def letterPc (c : Char) : Nat :=
  match c with
  | 'C' => 0 | 'D' => 2 | 'E' => 4 | 'F' => 5 | 'G' => 7 | 'A' => 9 | 'B' => 11
  | _ => 0

/-- Is this character a natural letter? -/
def isLetter (c : Char) : Bool := decide (c ∈ NATURAL)

/-- Is this character an accidental glyph? -/
def isAccChar (c : Char) : Bool := c = '#' || c = 'b'

/-- A run of accidentals is well formed when it is all sharps or all flats. -/
def accsOk (accs : List Char) : Bool :=
  accs.all (· = '#') || accs.all (· = 'b')

/-- Numeric value of a run of decimal digits. -/
def digitsVal (l : List Char) : Nat :=
  l.foldl (fun a c => 10 * a + (c.toNat - 48)) 0

/-- Split a note name into letter, accidental run and octave digits. -/
def parseNote (l : List Char) : Option (Char × List Char × List Char) :=
  match l with
  | [] => none
  | c :: rest =>
    if isLetter c then
      let accs := rest.takeWhile isAccChar
      let digs := rest.dropWhile isAccChar
      if accsOk accs && digs.all Char.isDigit then some (c, accs, digs) else none
    else none

/-- Properties of a parsed note, per the Note service interface of the spec. -/
structure NoteProps where
  valid : Bool
  name : String
  pc : String
  letter : Char
  alt : Int
  chroma : Nat
  octave : Nat
  hasOct : Bool
  midi : Int
deriving Repr, DecidableEq

/-- The invalid note. -/
def invalidNote : NoteProps :=
  { valid := false, name := "", pc := "", letter := 'C', alt := 0,
    chroma := 0, octave := 0, hasOct := false, midi := 0 }

/-- Modelled from the spec: the external Note service parse function. -/
def Note (name : String) : NoteProps :=
  match parseNote name.toList with
  | none => invalidNote
  | some (c, accs, digs) =>
    let alt : Int := if accs.all (· = '#') then (accs.length : Int) else -(accs.length : Int)
    let chroma := (((letterPc c : Int) + alt).emod 12).toNat
    let octave := if digs.isEmpty then 4 else digitsVal digs
    { valid := true, name := name, pc := (c :: accs).asString, letter := c,
      alt := alt, chroma := chroma, octave := octave, hasOct := !digs.isEmpty,
      midi := 12 * ((octave : Int) + 1) + (letterPc c : Int) + alt }

/-- Modelled from the spec: a note built from a MIDI number alone
(Note with a midi-valued initializer); only its midi field is ever read. -/
def NoteFromMidi (m : Int) : NoteProps :=
  { valid := true, name := "", pc := "", letter := 'C', alt := 0,
    chroma := (m.emod 12).toNat, octave := ((m / 12) - 1).toNat, hasOct := true, midi := m }

/-! ## The external Interval service

Modelled from the spec: the Interval service parses an interval name into
its semitone width and ordinal degree number (spec section 6).  The table
covers the interval vocabulary of the dictionary templates; unknown names
give the zero interval. -/

/-- Parsed interval properties. -/
structure IntervalProps where
  width : Int
  inumber : Int
deriving Repr, DecidableEq

/-- Semitone width under its other source name. -/
def IntervalProps.semitones (i : IntervalProps) : Int := i.width

/-- Degree number under its other source name. -/
def IntervalProps.num (i : IntervalProps) : Int := i.inumber

/-- Modelled from the spec: the external Interval service parse function. -/
def IntervalFn (name : String) : IntervalProps :=
  if name = "1P" then ⟨0, 1⟩
  else if name = "2m" then ⟨1, 2⟩
  else if name = "2M" then ⟨2, 2⟩
  else if name = "2A" then ⟨3, 2⟩
  else if name = "3m" then ⟨3, 3⟩
  else if name = "3M" then ⟨4, 3⟩
  else if name = "4P" then ⟨5, 4⟩
  else if name = "4A" then ⟨6, 4⟩
  else if name = "5d" then ⟨6, 5⟩
  else if name = "5P" then ⟨7, 5⟩
  else if name = "5A" then ⟨8, 5⟩
  else if name = "6m" then ⟨8, 6⟩
  else if name = "6M" then ⟨9, 6⟩
  else if name = "7m" then ⟨10, 7⟩
  else if name = "7M" then ⟨11, 7⟩
  else ⟨0, 0⟩

/-! ## The external Pc service (pitch-class signature algebra)

Modelled from the spec, section 4.2: chroma strings, the numeric
fingerprint, the normalized form, rotation, and the strict subset and
superset tests used by the derived queries (section 4.5 requires the
comparisons to be strict). -/

/-- The chroma string read as a 12-bit binary integer, first character most
significant (the fingerprint convention fixed by the spec). -/
def chromaToNum (chroma : String) : Nat :=
  chroma.toList.foldl (fun a c => 2 * a + (if c = '1' then 1 else 0)) 0

/-- Modelled from the spec: BaseArray.rotate — cyclic left rotation with
negative amounts wrapping, the convention under which rotating a signature
by the negated tonic pitch class re-keys it correctly (C major stays on the
white keys, D major lands on the D major pitch classes). -/
def rotate (n : Int) (l : List α) : List α :=
  if l.isEmpty then l
  else
    let i := (n.emod (l.length : Int)).toNat
    l.drop i ++ l.take i

/-- Modelled from the spec: signatureOf — set bit (width mod 12) for every
interval width, bit 0 always included. -/
def chromaFromWidths (ws : List Int) : String :=
  ((List.range 12).map
    (fun i => if i = 0 || ws.any (fun w => w.emod 12 = (i : Int)) then '1' else '0')).asString

/-- Modelled from the spec: the normalized form — the chroma rotated to
start at the lowest-numbered active bit. -/
def normalizeChroma (chroma : String) : String :=
  match chroma.toList.findIdx? (· = '1') with
  | some i => (chroma.toList.drop i ++ chroma.toList.take i).asString
  | none => chroma

/-- Modelled from the spec: isSupersetOf — the candidate has every pitch
class of the query set plus at least one more (strict, section 4.5). -/
def isSupersetOf (set : String) (notes : String) : Bool :=
  let s := chromaToNum set
  let o := chromaToNum notes
  (s != o) && (o &&& s == s)

/-- Modelled from the spec: isSubsetOf — the candidate has fewer pitch
classes, all of them from the query set (strict, section 4.5). -/
def isSubsetOf (set : String) (notes : String) : Bool :=
  let s := chromaToNum set
  let o := chromaToNum notes
  (s != o) && (o &&& s == o)

/-! ## The dictionary (src/src/index.ts, namespace Dictionary) -/

/-- Dictionary entry: a scale type, pitch-class-set properties plus name,
interval names and aliases (index.ts interface ScaleType). -/
structure ScaleType where
  empty : Bool
  setNum : Option Nat
  chroma : String
  normalized : String
  length : Nat
  name : String
  intervals : List String
  aliases : List String
deriving Repr, DecidableEq

/-- Modelled from the spec: the Pcset construction (ann-music-pc pcset)
giving the set-level fields of a dictionary entry from its intervals. -/
def pcset (intervals : List String) : ScaleType :=
  let ws := intervals.map (fun i => (IntervalFn i).width)
  let chroma := chromaFromWidths ws
  { empty := chromaToNum chroma == 0,
    setNum := some (chromaToNum chroma),
    chroma := chroma,
    normalized := normalizeChroma chroma,
    length := chroma.toList.count '1',
    name := "", intervals := intervals, aliases := [] }

/-- Modelled from the spec: the raw template list SCALE_LIST (the source
file ./data is not part of the repository snapshot).  Entries follow the
template format [interval-formula, canonical-name, ...aliases] and cover
the scales the spec names explicitly. -/
def SCALE_LIST : List (List String) := [
  ["1P 2M 3M 4P 5P 6M 7M", "major", "ionian"],
  ["1P 2M 3m 4P 5P 6m 7m", "minor", "aeolian"],
  ["1P 2M 3M 5P 6M", "major pentatonic", "pentatonic"],
  ["1P 3m 4P 5P 7m", "minor pentatonic"],
  ["1P 3M 4P 5P 7M", "ionian pentatonic"],
  ["1P 2M 4P 5P 6M", "ritusen"],
  ["1P 2M 4P 5P 7m", "egyptian"],
  ["1P 3m 4P 6m 7m", "malkos raga"],
  ["1P 2M 3M 4P 5P 6M 7m 7M", "bebop dominant"],
  ["1P 2M 3M 4P 5P 5A 6M 7M", "bebop major"],
  ["1P 2M 3M 4P 4A 5P 6M 7M", "ichikosucho"],
  ["1P 2m 2M 3m 3M 4P 4A 5P 6m 6M 7m 7M", "chromatic"]]

/-- index.ts Dictionary.toScaleType: split the interval formula and spread
the pcset properties with name and aliases. -/
def toScaleType : List String → ScaleType
  | ivls :: name :: aliases =>
    let intervals := strSplit ivls ' '
    { pcset intervals with name := name, intervals := intervals, aliases := aliases }
  | _ => pcset []

/-- index.ts Dictionary.TYPES. -/
def TYPES : List ScaleType := SCALE_LIST.map toScaleType

/-- index.ts Dictionary.toScales: fold every type into one lookup table
under its name, its setNum (as its decimal string, since JavaScript object
keys are strings), its chroma, and each alias.  The keys of this concrete
dictionary are pairwise distinct, so first-match lookup agrees with the
JavaScript overwrite semantics. -/
def SCALES : List (String × ScaleType) :=
  TYPES.foldl
    (fun index scale =>
      index ++ (scale.name, scale) :: (natToStr (scale.setNum.getD 0), scale) ::
        (scale.chroma, scale) :: scale.aliases.map (fun a => (a, scale)))
    []

/-- Dictionary lookup (a pure map read). -/
def lookupScaleType (k : String) : Option ScaleType := SCALES.lookup k

/-! ## Theory: the sentinels (src/src/index.ts, namespace Theory) -/

/-- Modelled from the spec: EmptySet of the Pc service. -/
def EmptySet : ScaleType :=
  { empty := true, setNum := some 0, chroma := "000000000000",
    normalized := "000000000000", length := 0, name := "", intervals := [], aliases := [] }

/-- Theory.NoScaleType. -/
def NoScaleType : ScaleType :=
  { EmptySet with name := "", intervals := [], aliases := [] }

/-- An instantiated scale value (index.ts interface Scale).  The JavaScript
null tonic of the sentinel is modelled as the empty string; the NaN setNum
of the sentinel is modelled as none. -/
structure ScaleProps where
  empty : Bool
  setNum : Option Nat
  chroma : String
  normalized : String
  length : Nat
  name : String
  intervals : List String
  aliases : List String
  tonic : String
  type : String
  notes : List String
  valid : Bool
deriving Repr, DecidableEq

/-- Theory.NoScale: the canonical empty-scale sentinel. -/
def NoScale : ScaleProps :=
  { empty := true, name := "", type := "", tonic := "", length := 0,
    setNum := none, chroma := "", normalized := "", aliases := [],
    notes := [], intervals := [], valid := false }

/-! ## Enharmonic transposition (external, used by index.ts Scale) -/

/-- Accidental rendering: sharps for positive offsets, flats for negative. -/
def accToStr (alt : Int) : String :=
  if alt < 0 then (List.replicate (-alt).toNat 'b').asString
  else (List.replicate alt.toNat '#').asString

/-- Modelled from the spec: the Pc service transpose — advance the letter by
(degree - 1) natural steps and attach the accidental that makes the result
sit exactly (interval width) semitones above the input pitch class
(spec section 4.4); a pitch-class-only input yields a pitch-class-only
result. -/
def transpose (noteName ivlName : String) : NoteProps :=
  let n := Note noteName
  let i := IntervalFn ivlName
  if !n.valid then n
  else
    let letterNew := NATURAL.getD ((letterStep n.letter + (i.inumber - 1).toNat) % 7) 'C'
    let pcTarget := ((n.chroma : Int) + i.width).emod 12
    let r := (pcTarget - (letterPc letterNew : Int)).emod 12
    let alt := if r ≤ 6 then r else r - 12
    let oct :=
      if n.hasOct then natToStr ((n.midi + i.width - alt - (letterPc letterNew : Int)) / 12 - 1).toNat
      else ""
    Note ((Char.toString letterNew) ++ accToStr alt ++ oct)

/-! ## Scale instantiation (src/src/index.ts, function Scale) -/

/-- index.ts Dictionary.tokenize: split a scale name into tonic and type. -/
def tokenize (name : String) : String × String :=
  let i := strIndexOf name ' '
  let tonic := Note ((name.toList.take (if i < 0 then 0 else i.toNat)).asString)
  if !tonic.valid then
    let n := Note name
    if !n.valid then ("", name) else (n.name, "")
  else
    let type := (name.toList.drop tonic.name.toList.length).asString
    (tonic.name, if type.toList.length ≠ 0 then type else "")

/-- index.ts Scale on the array form of ScaleInit: the [tonic, type] pair. -/
def ScaleTokens (sname stype : String) : ScaleProps :=
  let tonic := Note sname
  let st := (lookupScaleType (strTrim stype)).getD NoScaleType
  if st.empty then NoScale
  else
    let chroma :=
      if tonic.chroma ≠ 0 then (rotate (-(tonic.chroma : Int)) st.chroma.toList).asString
      else st.chroma
    let notes := if tonic.valid then st.intervals.map (fun i => (transpose tonic.name i).name) else []
    let name := if tonic.valid then tonic.pc ++ " " ++ st.name else st.name
    { empty := st.empty, setNum := st.setNum, chroma := chroma,
      normalized := st.normalized, length := st.length, name := name,
      intervals := st.intervals, aliases := st.aliases,
      tonic := tonic.pc, type := st.name, notes := notes, valid := true }

/-- index.ts Scale on the string form of ScaleInit. -/
def Scale (src : String) : ScaleProps :=
  let t := tokenize src
  ScaleTokens t.1 t.2

/-! ## Derived queries (src/src/index.ts, namespaces SetMethods and Static) -/

/-- index.ts SetMethods.extended: all dictionary scale types whose chroma is
a strict superset of the query scale's chroma. -/
def extended (name : String) : List String :=
  let s := Scale name
  (TYPES.filter (fun scale => isSupersetOf s.chroma scale.chroma)).map (fun scale => scale.name)

/-- index.ts SetMethods.reduced: all dictionary scale types whose chroma is
a strict subset of the query scale's chroma. -/
def reduced (name : String) : List String :=
  let s := Scale name
  (TYPES.filter (fun scale => isSubsetOf s.chroma scale.chroma)).map (fun scale => scale.name)

/-- index.ts Static.semitonesToStep: the switch leaves the result undefined
for differences other than 1, 2 and 3; that is modelled as none. -/
def semitonesToStep (semitones : Int) : Option String :=
  if semitones = 1 then some "H"
  else if semitones = 2 then some "W"
  else if semitones = 3 then some "W."
  else none

/-- The indexed loop of toSteps (src/unnamed/part_001 lines 237-250 and
src/unnamed/part_002 lines 127-140): one step symbol per consecutive pair
of semitone values. -/
def stepsLoop : List Int → List String
  | a :: b :: rest =>
    (if b - a = 1 then "H" else if b - a = 2 then "W" else "W.") :: stepsLoop (b :: rest)
  | _ => []

/-- toSteps (src/unnamed/part_001): consecutive semitone differences of the
interval formula rendered as step symbols.  The resolved intervals agree
across the Scale variants, so the pure Scale above is used. -/
def toSteps (scale : String) : List String :=
  let s := Scale scale
  let semitones := s.intervals.map (fun ivl => (IntervalFn ivl).semitones)
  stepsLoop semitones

/-! ## The nested-pc data model (src/src/types.ts) and its dictionary
(src/src/dictionary.ts), used by the part_002 variant of Scale -/

/-- types.ts ScalePc: the pick of pcnum, chroma and normalized. -/
structure ScalePc where
  pcnum : Nat
  chroma : String
  normalized : String
deriving Repr, DecidableEq

/-- types.ts ScaleType (named apart from the index.ts ScaleType above). -/
structure ScaleTypeP where
  pc : ScalePc
  type : String
  aliases : List String
  intervals : List String
deriving Repr, DecidableEq

/-- types.ts ScaleProps (named apart from the index.ts ScaleProps above). -/
structure ScalePropsP where
  pc : ScalePc
  name : String
  type : String
  tonic : String
  aliases : List String
  notes : List String
  intervals : List String
  formula : String
  length : Nat
  valid : Bool
deriving Repr, DecidableEq

/-- Modelled from the spec: the Pc construction of ann-music-pc (pcnum,
chroma, normalized) from a list of interval names. -/
def Pc (intervals : List String) : ScalePc :=
  let chroma := chromaFromWidths (intervals.map (fun i => (IntervalFn i).width))
  { pcnum := chromaToNum chroma, chroma := chroma, normalized := normalizeChroma chroma }

/-- dictionary.ts toScaleType: the third template slot is one
space-separated alias string. -/
def toScaleTypeP : List String → ScaleTypeP
  | ivls :: type :: abbrvs =>
    let intervals := strSplit ivls ' '
    let aliases := match abbrvs with
      | a :: _ => strSplit a ' '
      | [] => []
    { pc := Pc intervals, type := type, aliases := aliases, intervals := intervals }
  | _ => { pc := Pc [], type := "", aliases := [], intervals := [] }

/-- dictionary.ts SCALE_TYPES. -/
def SCALE_TYPES : List ScaleTypeP := SCALE_LIST.map toScaleTypeP

/-- dictionary.ts SCALES: lookup table keyed by canonical type name and by
each alias (keys are pairwise distinct here, so first-match lookup agrees
with the JavaScript overwrite semantics). -/
def SCALES_P : List (String × ScaleTypeP) :=
  SCALE_TYPES.foldl
    (fun index scale => index ++ (scale.type, scale) :: scale.aliases.map (fun a => (a, scale)))
    []

/-- part_002 EmptyPc (the three fields that ScalePc carries). -/
def EmptyPc : ScalePc :=
  { pcnum := 0, chroma := "000000000000", normalized := "000000000000" }

/-- part_002 NoScaleType. -/
def NoScaleTypeP : ScaleTypeP :=
  { pc := EmptyPc, type := "", intervals := [], aliases := [] }

/-- part_002 NoScale. -/
def NoScaleP : ScalePropsP :=
  { pc := EmptyPc, name := "", type := "", tonic := "", aliases := [],
    notes := [], intervals := [], formula := "", length := 0, valid := false }

/-! ## Enharmonic spelling (src/unnamed/part_002 lines 187-238) -/

/-- The successor letter in the natural cycle (NATURAL at toStep + 1 mod 7):
A→B→C→D→E→F→G→A. -/
def nextLetter (c : Char) : Char :=
  NATURAL.getD ((letterStep c + 1) % 7) 'C'

/-- part_002 nextScaleStep: spell the note (midi) semitones above the
current note on the next natural letter, choosing the octave of that letter
nearest to the target pitch and rendering the signed pitch difference as
repeated accidental glyphs. -/
def nextScaleStep (currentNote : NoteProps) (midi : Int) : String :=
  let midiTransposedNote := NoteFromMidi (currentNote.midi + midi)
  let newLetter := NATURAL.getD ((letterStep currentNote.letter + 1) % 7) 'C'
  let ltn1 := Note (Char.toString newLetter ++ natToStr currentNote.octave)
  let ltn2 := Note (Char.toString newLetter ++ natToStr (currentNote.octave + 1))
  let diff1 := (midiTransposedNote.midi - ltn1.midi).natAbs
  let diff2 := (midiTransposedNote.midi - ltn2.midi).natAbs
  let octaveOffset := if diff1 < diff2 then ltn1.octave else ltn2.octave
  let letterTransposedNote := Note (Char.toString newLetter ++ natToStr octaveOffset)
  let diff := midiTransposedNote.midi - letterTransposedNote.midi
  if diff = 0 then letterTransposedNote.name
  else if diff < 0 then
    Char.toString letterTransposedNote.letter ++ (List.replicate (-diff).toNat 'b').asString
      ++ natToStr letterTransposedNote.octave
  else
    Char.toString letterTransposedNote.letter ++ (List.replicate diff.toNat '#').asString
      ++ natToStr octaveOffset

/-- The note-building loop of part_002 scaleNotes, written as a fold that
carries the previously spelled name (the loop reads notes at i - 1, which
is exactly the value pushed on the previous iteration). -/
def scaleNotesGo (prev : String) : List Int → List String
  | [] => []
  | d :: ds =>
    let currentNote := Note prev
    let nextStep := nextScaleStep currentNote d
    nextStep :: scaleNotesGo nextStep ds

/-- part_002 scaleNotes: spell one note per interval starting from the
tonic, stepping by the consecutive differences of the interval widths, and
finally contracting a double sharp into the x glyph. -/
def scaleNotes (tonic : String) (intervals : List String) : List String :=
  let note := Note tonic
  if !note.valid then []
  else
    let scaleFormula := intervals.map (fun ivl => (IntervalFn ivl).width)
    let diffs := (scaleFormula.zip scaleFormula.tail).map (fun p => p.2 - p.1)
    ((note.name :: scaleNotesGo note.name diffs).map repl2)

/-! ## The part_002 Scale with its dictionary mutation

part_002 Scale fetches the dictionary entry's pc object by reference and
assigns pc.chroma on it, so the rotation is written back into the shared
dictionary.  The mutable part of the dictionary — the current pc.chroma of
each canonical type (all of an entry's keys alias the same object) — is
made explicit as a state value threaded through the function. -/

/-- part_002 tokenize: split on spaces; when the first token is a valid
note name, return its pitch class, the remaining tokens joined, and the
octave digits of the first token. -/
def tokenizeP (src : String) : String × String × String :=
  let tokens := strSplit src ' '
  let t0 := tokens.headD ""
  let n := Note t0
  if n.valid then
    (n.pc, joinSpace tokens.tail, if n.hasOct then natToStr n.octave else "")
  else
    ("", joinSpace tokens, "")

/-- part_002 scaleType: dictionary lookup with the NoScaleType fallback. -/
def scaleTypeP (type : String) : ScaleTypeP :=
  (SCALES_P.lookup (strTrim type)).getD NoScaleTypeP

/-- part_002 scaleFormula: interval widths joined with dashes. -/
def scaleFormulaP (intervals : List String) : String :=
  joinDash (intervals.map (fun ivl => intToStr (IntervalFn ivl).width))

/-- The pristine dictionary chroma state: every canonical type still maps
to its template chroma. -/
def initChromaState : List (String × String) :=
  SCALE_TYPES.map (fun st => (st.type, st.pc.chroma))

/-- part_002 Scale (lines 244-287), with the mutation of the shared
dictionary entry's pc.chroma made explicit: the function reads the entry's
current chroma from the state and writes the rotated chroma back. -/
def ScaleP (state : List (String × String)) (src : String) :
    ScalePropsP × List (String × String) :=
  let t := tokenizeP src
  let root := Note (t.1 ++ t.2.2)
  let st := scaleTypeP t.2.1
  let pc0 : ScalePc := { st.pc with chroma := (state.lookup st.type).getD st.pc.chroma }
  if st.intervals.length = 0 then (NoScaleP, state)
  else
    let chromaArr := pc0.chroma.toList
    let newChroma :=
      if root.valid then (rotate (-(root.chroma : Int)) chromaArr).asString else pc0.chroma
    let pc : ScalePc := { pc0 with chroma := newChroma }
    let state' := state.map (fun kv => if kv.1 = st.type then (kv.1, newChroma) else kv)
    let name := if root.valid then root.pc ++ " " ++ st.type else st.type
    let tonic := if root.valid then root.pc else ""
    let formula := scaleFormulaP st.intervals
    let notes := scaleNotes root.name st.intervals
    ({ type := st.type, aliases := st.aliases, intervals := st.intervals, pc := pc,
       name := name, formula := formula, tonic := tonic, notes := notes,
       length := st.intervals.length, valid := true }, state')

/-! ## Auxiliary definitions used by the theorems -/

/-- First character of a spelled note name: its natural letter. -/
def letterOf (s : String) : Char := s.toList.headD ' '

/-- The letter advanced a number of steps through the natural cycle. -/
def stepLetter : Nat → Char → Char
  | 0, c => c
  | n + 1, c => stepLetter n (nextLetter c)

/-- The seven natural letters in the A-to-G order the spec uses when it
speaks of a rotation of A,B,C,D,E,F,G. -/
def naturalsAtoG : List Char := ['A', 'B', 'C', 'D', 'E', 'F', 'G']

/-- Position of a letter in the A-to-G cycle. -/
def idxA (c : Char) : Nat :=
  match c with
  | 'A' => 0 | 'B' => 1 | 'C' => 2 | 'D' => 3 | 'E' => 4 | 'F' => 5 | 'G' => 6
  | _ => 0

/-- The three signature encodings of a scale value describe the same
pitch-class set: the fingerprint is the chroma read as a binary number and
the normalized form is the chroma rotated to its lowest active bit. -/
def viewsAgree (s : ScaleProps) : Prop :=
  s.setNum = some (chromaToNum s.chroma) ∧ s.normalized = normalizeChroma s.chroma

instance (s : ScaleProps) : Decidable (viewsAgree s) := by
  unfold viewsAgree
  exact instDecidableAnd

/-- Step symbol as the spec phrases it (refinement reference for toSteps):
difference 1 is a half step, 2 a whole step, anything else an augmented
step. -/
def specStepSymbol (d : Int) : String :=
  if d = 1 then "H" else if d = 2 then "W" else "W."

/-! ## General lemmas about the dictionary -/

/-- A successful association-list lookup returns one of the stored values. -/
theorem lookup_mem_snd {α β : Type} [BEq α] (k : α) (v : β) :
    ∀ l : List (α × β), l.lookup k = some v → v ∈ l.map Prod.snd := by
  intro l
  induction l with
  | nil => intro h; simp [List.lookup] at h
  | cons p t ih =>
    obtain ⟨a, b⟩ := p
    intro h
    rw [List.lookup] at h
    by_cases hbeq : (k == a) = true
    · simp [hbeq] at h
      simp [h]
    · rw [Bool.not_eq_true] at hbeq
      simp [hbeq] at h
      exact List.mem_cons_of_mem _ (ih h)

/-- Every value stored in the SCALES index is a non-empty dictionary type,
is one of TYPES, and carries mutually consistent signature encodings. -/
theorem SCALES_values_sound :
    ∀ st ∈ SCALES.map Prod.snd,
      st.empty = false ∧ st ∈ TYPES ∧ st.setNum = some (chromaToNum st.chroma) ∧
        st.normalized = normalizeChroma st.chroma := by decide

/-- The canonical names of the dictionary types are pairwise distinct. -/
theorem TYPES_names_nodup : (TYPES.map ScaleType.name).Nodup := by decide

/-! ## C1 -/

/-- C1: Scale("C", "major") produces the seven white-key note names in
order: its notes field equals ["C","D","E","F","G","A","B"]. -/
theorem Scale_C_major_white_keys :
    (ScaleTokens "C" "major").notes = ["C", "D", "E", "F", "G", "A", "B"] := by decide

/-! ## C4 -/

/-- C4: for every typeName that resolves to no dictionary entry (and any
tonicName), Scale returns the canonical empty-scale sentinel NoScale with
valid = false, as a normal return value (the embedding is a total
function, so no exception is possible). -/
theorem Scale_unresolvable_sentinel (sname stype : String)
    (h : lookupScaleType (strTrim stype) = none) :
    ScaleTokens sname stype = NoScale ∧ (ScaleTokens sname stype).valid = false := by
  have h1 : ScaleTokens sname stype = NoScale := by
    unfold ScaleTokens
    rw [h]
    rfl
  exact ⟨h1, by rw [h1]; rfl⟩

/-- C4 witness: the concrete unresolvable type of the spec example. -/
theorem Scale_unresolvable_sentinel_witness :
    lookupScaleType (strTrim "nonexistent-type") = none ∧
      (ScaleTokens "X" "nonexistent-type" = NoScale ∧
        (ScaleTokens "X" "nonexistent-type").valid = false) :=
  ⟨by decide, Scale_unresolvable_sentinel "X" "nonexistent-type" (by decide)⟩

/-! ## C2 -/

/-- C2 (code bug): the part_002 Scale is not repeat-call idempotent.  The
first call on "D major" rotates the shared dictionary entry's chroma in
place; the second call starts from the already-rotated chroma and rotates
again, so the two calls return different values. -/
theorem ScaleP_not_idempotent :
    ((ScaleP initChromaState "D major").1).pc.chroma = "011010110101" ∧
      ((ScaleP (ScaleP initChromaState "D major").2 "D major").1).pc.chroma = "010110101101" ∧
      (ScaleP (ScaleP initChromaState "D major").2 "D major").1 ≠
        (ScaleP initChromaState "D major").1 := by
  refine ⟨by decide, by decide, by decide⟩

/-! ## C3 -/

/-- C3 counterexample: for the rooted scale D major the chroma is rotated
into the key of D while setNum and normalized still describe the
un-rotated template set, so the three encodings disagree. -/
theorem Scale_D_major_views_disagree :
    (ScaleTokens "D" "major").setNum = some 2773 ∧
      chromaToNum (ScaleTokens "D" "major").chroma = 1717 ∧
      ¬ viewsAgree (ScaleTokens "D" "major") := by
  refine ⟨by decide, by decide, by decide⟩

/-- C3 amended: the three encodings are derived together and agree for
every scale whose tonic contributes no rotation — every unrooted scale
(invalid tonic) and every scale whose tonic has pitch class 0; only the
chroma of other rooted scales is rotated away from setNum and
normalized. -/
theorem Scale_views_agree_unrotated (sname stype : String)
    (hlk : (lookupScaleType (strTrim stype)).isSome = true)
    (h : (Note sname).chroma = 0) :
    viewsAgree (ScaleTokens sname stype) := by
  obtain ⟨st, hst⟩ := Option.isSome_iff_exists.mp hlk
  obtain ⟨hempty, -, hnum, hnorm⟩ :=
    SCALES_values_sound st (lookup_mem_snd _ _ _ hst)
  unfold ScaleTokens
  rw [hst]
  simp only [Option.getD_some, hempty, Bool.false_eq_true, if_false, h]
  constructor
  · simpa using hnum
  · simpa using hnorm

/-- C3 amended witness: C major (tonic pitch class 0) keeps the three
encodings in agreement. -/
theorem Scale_views_agree_unrotated_witness :
    (lookupScaleType (strTrim "major")).isSome = true ∧ (Note "C").chroma = 0 ∧
      viewsAgree (ScaleTokens "C" "major") :=
  ⟨by decide, by decide, Scale_views_agree_unrotated "C" "major" (by decide) (by decide)⟩

/-! ## Facts about invalid notes -/

/-- An invalid note carries the empty pitch class, chroma 0 and the empty
name (the falsy values the JavaScript call sites test). -/
theorem Note_not_valid_props (s : String) (h : (Note s).valid = false) :
    (Note s).chroma = 0 ∧ (Note s).pc = "" ∧ (Note s).name = "" := by
  unfold Note at h ⊢
  rcases hp : parseNote s.toList with _ | ⟨c, accs, digs⟩
  · exact ⟨rfl, rfl, rfl⟩
  · rw [hp] at h
    simp at h

/-! ## C7 -/

/-- C7: for every valid (tonic, type) pair — valid tonic note and a type
name that resolves in the dictionary — the instantiated scale's notes list
has exactly the same length as its intervals list. -/
theorem Scale_notes_length_eq_intervals (sname stype : String)
    (hton : (Note sname).valid = true)
    (hlk : (lookupScaleType (strTrim stype)).isSome = true) :
    (ScaleTokens sname stype).notes.length = (ScaleTokens sname stype).intervals.length := by
  obtain ⟨st, hst⟩ := Option.isSome_iff_exists.mp hlk
  obtain ⟨hempty, -, -, -⟩ := SCALES_values_sound st (lookup_mem_snd _ _ _ hst)
  unfold ScaleTokens
  rw [hst]
  simp [hempty, hton]

/-- C7 witness at the concrete pair (C, major). -/
theorem Scale_notes_length_eq_intervals_witness :
    ((Note "C").valid = true ∧ (lookupScaleType (strTrim "major")).isSome = true) ∧
      (ScaleTokens "C" "major").notes.length = (ScaleTokens "C" "major").intervals.length :=
  ⟨⟨by decide, by decide⟩, Scale_notes_length_eq_intervals "C" "major" (by decide) (by decide)⟩

/-! ## C5 -/

/-- C5: when the type resolves but the tonic is not a valid note, Scale
returns an unrooted scale: empty tonic, empty notes list, while type,
intervals and the un-rotated base signature fields are taken from the
dictionary entry and valid is true. -/
theorem Scale_unrooted_populated (sname stype : String)
    (hlk : (lookupScaleType (strTrim stype)).isSome = true)
    (hton : (Note sname).valid = false) :
    (ScaleTokens sname stype).tonic = "" ∧
      (ScaleTokens sname stype).notes = [] ∧
      (ScaleTokens sname stype).type = ((lookupScaleType (strTrim stype)).getD NoScaleType).name ∧
      (ScaleTokens sname stype).intervals =
        ((lookupScaleType (strTrim stype)).getD NoScaleType).intervals ∧
      (ScaleTokens sname stype).chroma =
        ((lookupScaleType (strTrim stype)).getD NoScaleType).chroma ∧
      (ScaleTokens sname stype).setNum =
        ((lookupScaleType (strTrim stype)).getD NoScaleType).setNum ∧
      (ScaleTokens sname stype).normalized =
        ((lookupScaleType (strTrim stype)).getD NoScaleType).normalized ∧
      (ScaleTokens sname stype).valid = true := by
  obtain ⟨st, hst⟩ := Option.isSome_iff_exists.mp hlk
  obtain ⟨hempty, -, -, -⟩ := SCALES_values_sound st (lookup_mem_snd _ _ _ hst)
  obtain ⟨hch, hpc, -⟩ := Note_not_valid_props sname hton
  rw [hst]
  unfold ScaleTokens
  rw [hst]
  simp [hempty, hton, hch, hpc]

/-- C5 witness: an invalid tonic with the resolvable type major. -/
theorem Scale_unrooted_populated_witness :
    ((lookupScaleType (strTrim "major")).isSome = true ∧ (Note "X").valid = false) ∧
      ((ScaleTokens "X" "major").tonic = "" ∧
        (ScaleTokens "X" "major").notes = [] ∧
        (ScaleTokens "X" "major").type = ((lookupScaleType (strTrim "major")).getD NoScaleType).name ∧
        (ScaleTokens "X" "major").intervals =
          ((lookupScaleType (strTrim "major")).getD NoScaleType).intervals ∧
        (ScaleTokens "X" "major").chroma =
          ((lookupScaleType (strTrim "major")).getD NoScaleType).chroma ∧
        (ScaleTokens "X" "major").setNum =
          ((lookupScaleType (strTrim "major")).getD NoScaleType).setNum ∧
        (ScaleTokens "X" "major").normalized =
          ((lookupScaleType (strTrim "major")).getD NoScaleType).normalized ∧
        (ScaleTokens "X" "major").valid = true) :=
  ⟨⟨by decide, by decide⟩, Scale_unrooted_populated "X" "major" (by decide) (by decide)⟩

/-! ## C10 -/

/-- The indexed loop of toSteps computes exactly the pairwise step symbols
of the semitone sequence. -/
theorem stepsLoop_eq_zipWith :
    ∀ l : List Int, stepsLoop l = List.zipWith (fun a b => specStepSymbol (b - a)) l l.tail
  | [] => rfl
  | [_] => rfl
  | a :: b :: r => by
    rw [show stepsLoop (a :: b :: r) =
        (if b - a = 1 then "H" else if b - a = 2 then "W" else "W.") :: stepsLoop (b :: r) from rfl]
    rw [stepsLoop_eq_zipWith (b :: r)]
    rfl

/-- C10: for every resolvable scale, toSteps maps each consecutive
semitone difference of the formula to a step symbol (1 to the half-step
symbol, 2 to the whole-step symbol, every other difference to the
augmented-step symbol) and the returned sequence is one shorter than the
intervals list. -/
theorem toSteps_step_symbols (name : String) (h : (Scale name).valid = true) :
    toSteps name =
      List.zipWith (fun a b => specStepSymbol (b - a))
        ((Scale name).intervals.map (fun ivl => (IntervalFn ivl).semitones))
        (((Scale name).intervals.map (fun ivl => (IntervalFn ivl).semitones)).tail) ∧
      (toSteps name).length = (Scale name).intervals.length - 1 := by
  constructor
  · exact stepsLoop_eq_zipWith _
  · rw [show toSteps name =
        stepsLoop ((Scale name).intervals.map (fun ivl => (IntervalFn ivl).semitones)) from rfl]
    rw [stepsLoop_eq_zipWith]
    rw [List.length_zipWith]
    simp [List.length_tail]

/-- C10 witness at major (whole-whole-half-whole-whole-whole). -/
theorem toSteps_step_symbols_witness :
    (Scale "major").valid = true ∧
      (toSteps "major" =
        List.zipWith (fun a b => specStepSymbol (b - a))
          ((Scale "major").intervals.map (fun ivl => (IntervalFn ivl).semitones))
          (((Scale "major").intervals.map (fun ivl => (IntervalFn ivl).semitones)).tail) ∧
        (toSteps "major").length = (Scale "major").intervals.length - 1) ∧
      toSteps "major" = ["W", "W", "H", "W", "W", "W"] :=
  ⟨by decide, toSteps_step_symbols "major" (by decide), by decide⟩

/-! ## C8 -/

/-- C8 counterexample: extended and reduced are not key-irrelevant — the
rooted query D major gives different lists from the unrooted query major,
because the comparison uses the rotated chroma. -/
theorem extended_reduced_key_dependent :
    extended "D major" = ["chromatic"] ∧
      extended "major" = ["bebop dominant", "bebop major", "ichikosucho", "chromatic"] ∧
      extended "D major" ≠ extended "major" ∧ reduced "D major" ≠ reduced "major" := by
  refine ⟨by decide, by decide, by decide, by decide⟩

/-- Trimming ignores the leading space left by tokenization. -/
theorem strTrim_space_cons (X : String) : strTrim (" " ++ X) = strTrim X := by
  obtain ⟨l⟩ := X
  rfl

/-! ## C9 -/

/-- C9: for every scale name X that resolves in the dictionary, extended X
does not contain the canonical name of X's entry, and neither does
reduced X (both comparisons are strict). -/
theorem extended_reduced_strict (X : String)
    (htok : tokenize X = ("", X))
    (hlk : (lookupScaleType (strTrim X)).isSome = true) :
    ((lookupScaleType (strTrim X)).getD NoScaleType).name ∉ extended X ∧
      ((lookupScaleType (strTrim X)).getD NoScaleType).name ∉ reduced X := by
  obtain ⟨st, hst⟩ := Option.isSome_iff_exists.mp hlk
  obtain ⟨hempty, hmemT, -, -⟩ := SCALES_values_sound st (lookup_mem_snd _ _ _ hst)
  have hscale : (Scale X).chroma = st.chroma := by
    have e : Scale X = ScaleTokens "" X := by
      unfold Scale
      rw [htok]
    rw [e]
    unfold ScaleTokens
    rw [hst]
    have hcE : (Note "").chroma = 0 := rfl
    simp [hempty, hcE]
  rw [hst]
  simp only [Option.getD_some]
  constructor
  · intro hmem
    unfold extended at hmem
    dsimp only at hmem
    rw [hscale] at hmem
    simp only [List.mem_map, List.mem_filter] at hmem
    obtain ⟨e, ⟨heT, hsup⟩, hname⟩ := hmem
    have he : e = st := List.inj_on_of_nodup_map TYPES_names_nodup heT hmemT hname
    subst he
    simp [isSupersetOf] at hsup
  · intro hmem
    unfold reduced at hmem
    dsimp only at hmem
    rw [hscale] at hmem
    simp only [List.mem_map, List.mem_filter] at hmem
    obtain ⟨e, ⟨heT, hsub⟩, hname⟩ := hmem
    have he : e = st := List.inj_on_of_nodup_map TYPES_names_nodup heT hmemT hname
    subst he
    simp [isSubsetOf] at hsub

/-- C9 witness at the name major. -/
theorem extended_reduced_strict_witness :
    (tokenize "major" = ("", "major") ∧ (lookupScaleType (strTrim "major")).isSome = true) ∧
      (((lookupScaleType (strTrim "major")).getD NoScaleType).name ∉ extended "major" ∧
        ((lookupScaleType (strTrim "major")).getD NoScaleType).name ∉ reduced "major") :=
  ⟨⟨by decide, by decide⟩, extended_reduced_strict "major" (by decide) (by decide)⟩

/-! ## C6: the letter-progression lemma stack -/

/-- Digit characters are digits. -/
theorem digitChar_isDigit (d : Nat) : (digitChar d).isDigit = true := by
  unfold digitChar
  rcases d with _ | _ | _ | _ | _ | _ | _ | _ | _ | _ | d <;> rfl

/-- Every character of a rendered natural number is a digit. -/
theorem natDigitsAux_digits :
    ∀ fuel n : Nat, ∀ c ∈ natDigitsAux fuel n, c.isDigit = true := by
  intro fuel
  induction fuel with
  | zero => intro n c hc; simp [natDigitsAux] at hc
  | succ f ih =>
    intro n c hc
    rw [natDigitsAux] at hc
    by_cases h : n < 10
    · simp only [h, if_true, List.mem_singleton] at hc
      subst hc
      exact digitChar_isDigit n
    · simp only [h, if_false, List.mem_append, List.mem_singleton] at hc
      rcases hc with hc | hc
      · exact ih _ _ hc
      · subst hc
        exact digitChar_isDigit _

/-- Every character of natDigits is a digit. -/
theorem natDigits_digits (n : Nat) : ∀ c ∈ natDigits n, c.isDigit = true :=
  natDigitsAux_digits (n + 1) n

/-- Digits are not accidental glyphs. -/
theorem digit_not_acc (c : Char) (h : c.isDigit = true) : isAccChar c = false := by
  by_cases h1 : c = '#'
  · subst h1
    exact absurd h (by decide)
  · by_cases h2 : c = 'b'
    · subst h2
      exact absurd h (by decide)
    · simp [isAccChar, h1, h2]

/-- An accidental run followed by a digit run splits back into exactly
those two runs. -/
theorem takeWhile_acc_digits (accs digs : List Char)
    (ha : ∀ c ∈ accs, isAccChar c = true) (hd : ∀ c ∈ digs, Char.isDigit c = true) :
    (accs ++ digs).takeWhile isAccChar = accs ∧ (accs ++ digs).dropWhile isAccChar = digs := by
  induction accs with
  | nil =>
    cases digs with
    | nil => exact ⟨rfl, rfl⟩
    | cons d ds =>
      have h0 := digit_not_acc d (hd d (by simp))
      constructor
      · simp [List.takeWhile_cons, h0]
      · simp [List.dropWhile_cons, h0]
  | cons a as ih =>
    have ha1 := ha a (by simp)
    obtain ⟨ih1, ih2⟩ := ih (fun c hc => ha c (by simp [hc]))
    constructor
    · simp [List.takeWhile_cons, ha1, ih1]
    · simp [List.dropWhile_cons, ha1, ih2]

/-- Parsing a rendered letter-accidentals-digits name recovers its parts. -/
theorem parseNote_render (c : Char) (accs digs : List Char)
    (hc : isLetter c = true)
    (ha : ∀ x ∈ accs, isAccChar x = true)
    (hok : accsOk accs = true)
    (hd : ∀ x ∈ digs, Char.isDigit x = true) :
    parseNote (c :: (accs ++ digs)) = some (c, accs, digs) := by
  unfold parseNote
  obtain ⟨h1, h2⟩ := takeWhile_acc_digits accs digs ha hd
  have hall : digs.all Char.isDigit = true := List.all_eq_true.mpr hd
  simp [hc, h1, h2, hok, hall]

/-- Parse soundness: a successful parse starts with a natural letter and
splits the input. -/
theorem parseNote_sound (l : List Char) (c : Char) (accs digs : List Char)
    (h : parseNote l = some (c, accs, digs)) :
    isLetter c = true ∧ l = c :: (accs ++ digs) := by
  unfold parseNote at h
  cases l with
  | nil => simp at h
  | cons x rest =>
    by_cases hx : isLetter x = true
    · simp only [hx, if_true] at h
      by_cases hcond :
          (accsOk (rest.takeWhile isAccChar) && (rest.dropWhile isAccChar).all Char.isDigit) = true
      · simp only [hcond, if_true, Option.some.injEq, Prod.mk.injEq] at h
        obtain ⟨hxc, hacc, hdig⟩ := h
        subst hxc
        refine ⟨hx, ?_⟩
        rw [← hacc, ← hdig, List.takeWhile_append_dropWhile]
      · simp [hcond] at h
    · simp [hx] at h

/-- A valid note's letter is a natural letter and is the head character of
its (preserved) name. -/
theorem Note_valid_letter (s : String) (h : (Note s).valid = true) :
    isLetter (Note s).letter = true ∧ letterOf s = (Note s).letter ∧ (Note s).name = s := by
  unfold Note at h ⊢
  rcases hp : parseNote s.toList with _ | ⟨c, accs, digs⟩
  · rw [hp] at h
    simp [invalidNote] at h
  · obtain ⟨hc, hsplit⟩ := parseNote_sound _ _ _ _ hp
    refine ⟨hc, ?_, rfl⟩
    show s.toList.headD ' ' = c
    rw [hsplit]
    rfl

/-- Every position of the natural-letter cycle is a natural letter. -/
theorem isLetter_getD_mod (k : Nat) : isLetter (NATURAL.getD (k % 7) 'C') = true := by
  have h : k % 7 < 7 := Nat.mod_lt _ (by decide)
  have hall : ∀ m, m < 7 → isLetter (NATURAL.getD m 'C') = true := by decide
  exact hall _ h

/-- A letter followed by digits parses as a valid note with that letter
and the full string as its name. -/
theorem Note_letter_digits (c : Char) (n : Nat) (hc : isLetter c = true) :
    (Note (Char.toString c ++ natToStr n)).valid = true ∧
      (Note (Char.toString c ++ natToStr n)).letter = c ∧
      (Note (Char.toString c ++ natToStr n)).name = Char.toString c ++ natToStr n := by
  have e : (Char.toString c ++ natToStr n).toList = c :: ([] ++ natDigits n) := rfl
  unfold Note
  rw [e, parseNote_render c [] (natDigits n) hc (by simp) (by decide) (natDigits_digits n)]
  exact ⟨rfl, rfl, rfl⟩

/-- A letter, a run of one accidental glyph and digits parse as a valid
note with that letter. -/
theorem Note_letter_acc_digits (c acc : Char) (m n : Nat)
    (hc : isLetter c = true) (hacc : acc = '#' ∨ acc = 'b') :
    (Note (Char.toString c ++ (List.replicate m acc).asString ++ natToStr n)).valid = true ∧
      (Note (Char.toString c ++ (List.replicate m acc).asString ++ natToStr n)).letter = c := by
  have e : (Char.toString c ++ (List.replicate m acc).asString ++ natToStr n).toList =
      c :: (List.replicate m acc ++ natDigits n) := rfl
  have ha : ∀ x ∈ List.replicate m acc, isAccChar x = true := by
    intro x hx
    rw [List.eq_of_mem_replicate hx]
    rcases hacc with h | h <;> simp [isAccChar, h]
  have hok : accsOk (List.replicate m acc) = true := by
    unfold accsOk
    rcases hacc with h | h <;> subst h
    · apply Bool.or_eq_true_iff.mpr
      left
      exact List.all_eq_true.mpr (fun x hx => by simp [List.eq_of_mem_replicate hx])
    · apply Bool.or_eq_true_iff.mpr
      right
      exact List.all_eq_true.mpr (fun x hx => by simp [List.eq_of_mem_replicate hx])
  unfold Note
  rw [e, parseNote_render c (List.replicate m acc) (natDigits n) hc ha hok (natDigits_digits n)]
  exact ⟨rfl, rfl⟩

/-- The letter of a letter-plus-digits note name survives a re-parse of
the name field. -/
theorem Note_name_letter_digits (c : Char) (hc : isLetter c = true) (o : Nat) :
    (Note ((Note (Char.toString c ++ natToStr o)).name)).valid = true ∧
      (Note ((Note (Char.toString c ++ natToStr o)).name)).letter = c ∧
      letterOf ((Note (Char.toString c ++ natToStr o)).name) = c := by
  obtain ⟨hv, hl, hn⟩ := Note_letter_digits c o hc
  rw [hn]
  exact ⟨hv, hl, rfl⟩

/-- A letter, one-glyph accidental run and digits give a valid note whose
letter and head character are that letter. -/
theorem Note_letter_acc_digits_head (c acc : Char) (m n : Nat)
    (hc : isLetter c = true) (hacc : acc = '#' ∨ acc = 'b') :
    (Note (Char.toString c ++ (List.replicate m acc).asString ++ natToStr n)).valid = true ∧
      (Note (Char.toString c ++ (List.replicate m acc).asString ++ natToStr n)).letter = c ∧
      letterOf (Char.toString c ++ (List.replicate m acc).asString ++ natToStr n) = c := by
  obtain ⟨hv, hl⟩ := Note_letter_acc_digits c acc m n hc hacc
  exact ⟨hv, hl, rfl⟩

set_option maxHeartbeats 1600000 in
/-- nextScaleStep always spells its result on the successor letter of the
current note's letter, and the result is a valid note name; the octave
tie-break is split into its two branches, which spell the same letter. -/
theorem nextScaleStep_letter (cur : NoteProps) (m : Int) :
    (Note (nextScaleStep cur m)).valid = true ∧
      (Note (nextScaleStep cur m)).letter = nextLetter cur.letter ∧
      letterOf (nextScaleStep cur m) = nextLetter cur.letter := by
  have hLlet : isLetter (NATURAL.getD ((letterStep cur.letter + 1) % 7) 'C') = true :=
    isLetter_getD_mod _
  have hnext : nextLetter cur.letter = NATURAL.getD ((letterStep cur.letter + 1) % 7) 'C' := rfl
  rw [hnext]
  unfold nextScaleStep
  dsimp only
  split
  · split
    · exact Note_name_letter_digits _ hLlet _
    · split
      · rw [(Note_letter_digits _ _ hLlet).2.1]
        exact Note_letter_acc_digits_head _ 'b' _ _ hLlet (Or.inr rfl)
      · rw [(Note_letter_digits _ _ hLlet).2.1]
        exact Note_letter_acc_digits_head _ '#' _ _ hLlet (Or.inl rfl)
  · split
    · exact Note_name_letter_digits _ hLlet _
    · split
      · rw [(Note_letter_digits _ _ hLlet).2.1]
        exact Note_letter_acc_digits_head _ 'b' _ _ hLlet (Or.inr rfl)
      · rw [(Note_letter_digits _ _ hLlet).2.1]
        exact Note_letter_acc_digits_head _ '#' _ _ hLlet (Or.inl rfl)

/-- Replacing the first double sharp leaves a non-sharp head character in
place. -/
theorem replaceDoubleSharp_cons_ne (c : Char) (l : List Char) (h : ¬ c = '#') :
    replaceDoubleSharp (c :: l) = c :: replaceDoubleSharp l := by
  rw [replaceDoubleSharp.eq_def]
  split
  · rename_i heq
    exact absurd (by injection heq) h
  · rename_i c' rest heq
    injection heq with h1 h2
    subst h1
    subst h2
    rfl
  · rename_i heq
    exact absurd heq (by simp)

/-- The double-sharp contraction does not change the head letter of a
valid note name. -/
theorem letterOf_repl2 (s : String) (h : (Note s).valid = true) :
    letterOf (repl2 s) = letterOf s := by
  unfold Note at h
  rcases hp : parseNote s.toList with _ | ⟨c, accs, digs⟩
  · rw [hp] at h
    simp [invalidNote] at h
  · obtain ⟨hc, hsplit⟩ := parseNote_sound _ _ _ _ hp
    have hne : ¬ c = '#' := by
      intro hcc
      subst hcc
      exact absurd hc (by decide)
    show (replaceDoubleSharp s.toList).headD ' ' = s.toList.headD ' '
    rw [hsplit, replaceDoubleSharp_cons_ne c _ hne]
    rfl

/-- The spelling loop produces one note per semitone step. -/
theorem scaleNotesGo_length : ∀ (ds : List Int) (prev : String),
    (scaleNotesGo prev ds).length = ds.length
  | [], _ => rfl
  | _ :: t, prev => by
    show (scaleNotesGo (nextScaleStep (Note prev) _) t).length + 1 = t.length + 1
    rw [scaleNotesGo_length t]

/-- The spelling loop advances the letter by exactly one natural step per
produced note, and every produced name is a valid note name. -/
theorem scaleNotesGo_facts :
    ∀ (ds : List Int) (prev : String), (Note prev).valid = true →
      ((scaleNotesGo prev ds).map letterOf =
        (List.range ds.length).map (fun i => stepLetter (i + 1) (Note prev).letter)) ∧
      (∀ s ∈ scaleNotesGo prev ds, (Note s).valid = true) := by
  intro ds
  induction ds with
  | nil =>
    intro prev _
    exact ⟨rfl, by intro s hs; simp [scaleNotesGo] at hs⟩
  | cons d t ih =>
    intro prev hprev
    obtain ⟨hv, hl, hlo⟩ := nextScaleStep_letter (Note prev) d
    obtain ⟨ih1, ih2⟩ := ih (nextScaleStep (Note prev) d) hv
    constructor
    · show letterOf (nextScaleStep (Note prev) d) ::
        (scaleNotesGo (nextScaleStep (Note prev) d) t).map letterOf = _
      rw [hlo, ih1, hl, List.length_cons, List.range_succ_eq_map, List.map_cons, List.map_map]
      rfl
    · intro s hs
      rw [show scaleNotesGo prev (d :: t) =
          nextScaleStep (Note prev) d :: scaleNotesGo (nextScaleStep (Note prev) d) t from rfl] at hs
      rcases List.mem_cons.mp hs with hs | hs
      · subst hs
        exact hv
      · exact ih2 s hs

/-- C6: enharmonic spelling advances exactly one natural letter per scale
degree: for every rooted scale the i-th produced note's letter is the
tonic's letter advanced i steps through the natural-letter cycle (mod 7),
and when the scale has 7 notes the letters are a rotation of A,B,C,D,E,F,G
with no duplicates. -/
theorem scaleNotes_letter_progression (tonic : String) (ivls : List String)
    (h : (Note tonic).valid = true) :
    ((scaleNotes tonic ivls).map letterOf =
      (List.range (scaleNotes tonic ivls).length).map
        (fun i => stepLetter i (Note tonic).letter)) ∧
    ((scaleNotes tonic ivls).length = 7 →
      ((scaleNotes tonic ivls).map letterOf).Nodup ∧
      (scaleNotes tonic ivls).map letterOf = naturalsAtoG.rotate (idxA (Note tonic).letter)) := by
  obtain ⟨hlet, hheads, hname⟩ := Note_valid_letter tonic h
  have hsn : scaleNotes tonic ivls =
      ((Note tonic).name :: scaleNotesGo (Note tonic).name
        (((ivls.map (fun ivl => (IntervalFn ivl).width)).zip
          (ivls.map (fun ivl => (IntervalFn ivl).width)).tail).map (fun p => p.2 - p.1))).map
        repl2 := by
    unfold scaleNotes
    dsimp only
    rw [h]
    rfl
  rw [hsn, hname]
  generalize (((ivls.map (fun ivl => (IntervalFn ivl).width)).zip
      (ivls.map (fun ivl => (IntervalFn ivl).width)).tail).map (fun p => p.2 - p.1)) = ds
  obtain ⟨hgo1, hgo2⟩ := scaleNotesGo_facts ds tonic h
  have hmap : ((tonic :: scaleNotesGo tonic ds).map repl2).map letterOf =
      letterOf tonic :: (scaleNotesGo tonic ds).map letterOf := by
    rw [List.map_cons, List.map_cons, List.map_map]
    congr 1
    · exact letterOf_repl2 tonic h
    · apply List.map_congr_left
      intro s hs
      exact letterOf_repl2 s (hgo2 s hs)
  have hlen : ((tonic :: scaleNotesGo tonic ds).map repl2).length = ds.length + 1 := by
    rw [List.length_map, List.length_cons, scaleNotesGo_length]
  have h1 : ((tonic :: scaleNotesGo tonic ds).map repl2).map letterOf =
      (List.range ((tonic :: scaleNotesGo tonic ds).map repl2).length).map
        (fun i => stepLetter i (Note tonic).letter) := by
    rw [hmap, hgo1, hheads, hlen, List.range_succ_eq_map, List.map_cons, List.map_map]
    rfl
  refine ⟨h1, fun h7 => ?_⟩
  have hmemN : (Note tonic).letter ∈ NATURAL := of_decide_eq_true hlet
  have hall : ∀ c ∈ NATURAL,
      (((List.range 7).map (fun i => stepLetter i c)).Nodup ∧
        (List.range 7).map (fun i => stepLetter i c) = naturalsAtoG.rotate (idxA c)) := by decide
  rw [h1, h7]
  exact hall _ hmemN

/-- C6 witness: the C major scale steps through all seven letters. -/
theorem scaleNotes_letter_progression_witness :
    (Note "C").valid = true ∧
      (((scaleNotes "C" ["1P", "2M", "3M", "4P", "5P", "6M", "7M"]).map letterOf =
        (List.range (scaleNotes "C" ["1P", "2M", "3M", "4P", "5P", "6M", "7M"]).length).map
          (fun i => stepLetter i (Note "C").letter)) ∧
      ((scaleNotes "C" ["1P", "2M", "3M", "4P", "5P", "6M", "7M"]).length = 7 →
        ((scaleNotes "C" ["1P", "2M", "3M", "4P", "5P", "6M", "7M"]).map letterOf).Nodup ∧
        (scaleNotes "C" ["1P", "2M", "3M", "4P", "5P", "6M", "7M"]).map letterOf =
          naturalsAtoG.rotate (idxA (Note "C").letter))) ∧
      (scaleNotes "C" ["1P", "2M", "3M", "4P", "5P", "6M", "7M"]).map letterOf =
        ['C', 'D', 'E', 'F', 'G', 'A', 'B'] :=
  ⟨by decide,
    scaleNotes_letter_progression "C" ["1P", "2M", "3M", "4P", "5P", "6M", "7M"] (by decide),
    by decide⟩

/-! ## C8, amended: key-irrelevance restricted to rotation-free tonics -/

/-- Parse soundness for the parts: the accidental run is all accidental
glyphs and the octave run is all digits. -/
theorem parseNote_sound_parts (l : List Char) (c : Char) (accs digs : List Char)
    (h : parseNote l = some (c, accs, digs)) :
    (∀ x ∈ accs, isAccChar x = true) ∧ (∀ x ∈ digs, Char.isDigit x = true) := by
  unfold parseNote at h
  cases l with
  | nil => simp at h
  | cons x rest =>
    by_cases hx : isLetter x = true
    · simp only [hx, if_true] at h
      by_cases hcond :
          (accsOk (rest.takeWhile isAccChar) && (rest.dropWhile isAccChar).all Char.isDigit) = true
      · simp only [hcond, if_true, Option.some.injEq, Prod.mk.injEq] at h
        obtain ⟨-, hacc, hdig⟩ := h
        constructor
        · intro y hy
          rw [← hacc] at hy
          exact List.mem_takeWhile_imp hy
        · intro y hy
          rw [← hdig] at hy
          rw [Bool.and_eq_true] at hcond
          exact List.all_eq_true.mp hcond.2 y hy
      · simp [hcond] at h
    · simp [hx] at h

/-- A valid note name contains no space: it is a letter, accidental glyphs
and digits only. -/
theorem Note_valid_no_space (s : String) (h : (Note s).valid = true) :
    ∀ ch ∈ s.toList, ¬ ch = ' ' := by
  unfold Note at h
  rcases hp : parseNote s.toList with _ | ⟨c, accs, digs⟩
  · rw [hp] at h
    simp [invalidNote] at h
  · obtain ⟨hc, hsplit⟩ := parseNote_sound _ _ _ _ hp
    obtain ⟨hacc, hdig⟩ := parseNote_sound_parts _ _ _ _ hp
    intro ch hch habs
    subst habs
    rw [hsplit] at hch
    rcases List.mem_cons.mp hch with hch | hch
    · subst hch
      exact absurd hc (by decide)
    · rcases List.mem_append.mp hch with hch | hch
      · exact absurd (hacc _ hch) (by decide)
      · exact absurd (hdig _ hch) (by decide)

/-- The first space of a space-free prefix followed by a space sits right
after the prefix. -/
theorem idxOfAux_append_space (l r : List Char) (h : ∀ ch ∈ l, ¬ ch = ' ') :
    idxOfAux ' ' (l ++ ' ' :: r) = some l.length := by
  induction l with
  | nil => simp [idxOfAux]
  | cons a as ih =>
    have ha : ¬ a = ' ' := h a (by simp)
    rw [List.cons_append]
    show (if a = ' ' then some 0 else (idxOfAux ' ' (as ++ ' ' :: r)).map (· + 1)) =
      some (as.length + 1)
    rw [if_neg ha, ih (fun ch hch => h ch (by simp [hch]))]
    rfl

/-- Tokenizing a valid tonic name, a space and a type name splits exactly
at that space: the tonic note resolves and the remainder is the type. -/
theorem tokenize_note_space (t X : String) (hv : (Note t).valid = true) :
    tokenize (t ++ " " ++ X) = (t, " " ++ X) := by
  obtain ⟨-, -, hname⟩ := Note_valid_letter t hv
  have hns := Note_valid_no_space t hv
  obtain ⟨l⟩ := t
  obtain ⟨m⟩ := X
  have hdata : (String.mk l ++ " " ++ String.mk m) = String.mk (l ++ ' ' :: m) := by
    show String.mk ((l ++ [' ']) ++ m) = String.mk (l ++ ' ' :: m)
    rw [List.append_assoc]
    rfl
  rw [hdata]
  unfold tokenize
  dsimp only
  have hidx : strIndexOf (String.mk (l ++ ' ' :: m)) ' ' = (l.length : Int) := by
    unfold strIndexOf
    rw [show (String.mk (l ++ ' ' :: m)).toList = l ++ ' ' :: m from rfl,
      idxOfAux_append_space l m (fun ch hch => hns ch hch)]
  rw [hidx]
  have hneg : ¬ ((l.length : Int) < 0) := by
    exact Int.not_lt.mpr (Int.natCast_nonneg _)
  rw [if_neg hneg, Int.toNat_natCast]
  rw [show (String.mk (l ++ ' ' :: m)).toList = l ++ ' ' :: m from rfl, List.take_left]
  have hv' : (Note l.asString).valid = true := hv
  rw [hv']
  have hname' : (Note l.asString).name = String.mk l := hname
  rw [hname']
  rw [show (String.mk l).toList.length = l.length from rfl, List.drop_left]
  rfl

/-- A scale rooted on a tonic with pitch class 0 keeps the un-rotated
chroma, so it matches the unrooted query of the same type. -/
theorem Scale_pc_zero_chroma (t X : String)
    (hv : (Note t).valid = true) (hch : (Note t).chroma = 0)
    (htok : tokenize X = ("", X)) :
    (Scale (t ++ " " ++ X)).chroma = (Scale X).chroma := by
  have e1 : Scale (t ++ " " ++ X) = ScaleTokens t (" " ++ X) := by
    unfold Scale
    rw [tokenize_note_space t X hv]
  have e2 : Scale X = ScaleTokens "" X := by
    unfold Scale
    rw [htok]
  rw [e1, e2]
  unfold ScaleTokens
  rw [strTrim_space_cons]
  have hcE : (Note "").chroma = 0 := rfl
  by_cases hemp : ((lookupScaleType (strTrim X)).getD NoScaleType).empty = true
  · simp [hemp]
  · simp [hemp, hch, hcE]

/-- C8 amended: extended and reduced compare the instantiated scale's
chroma, which is rotated into the tonic's key for rooted scales, so the
key matters in general; the rooted query (tonic, type) returns the same
lists as the unrooted type query whenever the rotation is trivial, which
holds for every valid tonic whose pitch class is 0 (C, B#, and their
enharmonic equivalents). -/
theorem extended_reduced_tonic_pc_zero (t X : String)
    (hv : (Note t).valid = true) (hch : (Note t).chroma = 0)
    (htok : tokenize X = ("", X)) :
    extended (t ++ " " ++ X) = extended X ∧ reduced (t ++ " " ++ X) = reduced X := by
  have hc := Scale_pc_zero_chroma t X hv hch htok
  constructor
  · unfold extended
    dsimp only
    rw [hc]
  · unfold reduced
    dsimp only
    rw [hc]

/-- C8 amended witness: the pitch-class-0 tonic B# (not spelled C) against
major, plus the evaluated lists. -/
theorem extended_reduced_tonic_pc_zero_witness :
    ((Note "B#").valid = true ∧ (Note "B#").chroma = 0 ∧ tokenize "major" = ("", "major")) ∧
      (extended "B# major" = extended "major" ∧ reduced "B# major" = reduced "major") ∧
      extended "C major" = extended "major" :=
  ⟨⟨by decide, by decide, by decide⟩,
    extended_reduced_tonic_pc_zero "B#" "major" (by decide) (by decide) (by decide),
    by decide⟩
